import Mathlib

/-!
Verification of the Tool Orchestration System (`ToolOrchestrator`).

The development shallowly embeds the scheduler core of the orchestrator:
the tool registry (`registerTool`, the `tools` map), the synchronous prefix
of `executeTool` (lookup, admission check, enqueue-or-admit), the
`processQueue` drain, the `finally` release block, and the result
construction of the `try`/`catch` around the execute-vs-timeout race.

Modelling conventions:
- JavaScript runs handlers atomically between `await` points, so the
  coordinator is a labelled transition system whose transitions are the
  synchronous code blocks between suspension points.
- `generateExecutionId` (timestamp + random suffix) is modelled by a fresh
  natural-number counter `nextExecId`; `runningExecutions : Set<string>`
  becomes the list of in-flight execution records (id, tool, request,
  phase), whose ids are pairwise distinct.
- A tool's `validate` is modelled as a boolean predicate on parameters;
  a tool's `execute` may resolve, reject, or hang, so its behaviour is a
  nondeterministically chosen `RaceOutcome` in the step relation.
- The registry is populated during `initialize()` and treated as read-only
  afterwards (spec section 4.1), so it lives in the ambient `Config`.
- Ghost fields (`reqId`, `arrival`, `started`, the `next*` counters) are
  instrumentation only: no transition reads them to make a decision that
  the source code does not make.
-/

/-- Values of the duck-typed JavaScript parameter bags (`unknown`). -/
inductive JsValue
  | str (s : String)
  | num (n : Int)
  | other
deriving DecidableEq

/-- ToolParameters: `{ [key: string]: unknown }`. -/
def ToolParameters := String → Option JsValue

/-- AgentContext from `core/AutonomousAgent`: session/user identifiers,
timestamp, metadata. -/
structure AgentContext where
  sessionId : String
  userId : String
  timestamp : Nat
  metadata : List (String × JsValue)

/-- ToolResult: success flag, optional payload, message, measured
execution duration, optional list of error strings. -/
structure ToolResult where
  success : Bool
  data : Option JsValue
  message : String
  executionTime : Nat
  errors : Option (List String)

/-- Tool descriptor: name, description, category, version, and the
parameter-validation predicate.  The `execute` behaviour is modelled
nondeterministically by `RaceOutcome` in the step relation, since a tool's
`execute` promise may resolve, reject, or never settle. -/
structure Tool where
  name : String
  description : String
  category : String
  version : String
  validate : ToolParameters → Bool

/-- The registry: `tools : Map<string, Tool>`, as a lookup function. -/
def Registry := String → Option Tool

/-- An empty registry (the orchestrator before `initialize`). -/
def emptyRegistry : Registry := fun _ => none

/-- registerTool: `this.tools.set(tool.name, tool)` — insert keyed by the
tool's name, overwriting any prior entry under that name. -/
def registerTool (t : Tool) (reg : Registry) : Registry :=
  fun n => if n = t.name then some t else reg n

/-- The built-in CodeAnalysisTool: `validate` requires `params.code` to be
a string of positive length. -/
def codeAnalysisTool : Tool :=
  { name := "code-analysis"
    description := "Analyzes code quality, complexity, and maintainability"
    category := "analysis"
    version := "1.0.0"
    validate := fun p =>
      match p "code" with
      | some (JsValue.str s) => decide (0 < s.length)
      | _ => false }

/-- The built-in GitHubIntegrationTool: `validate` requires `params.action`
and `params.repository` to be strings. -/
def githubIntegrationTool : Tool :=
  { name := "github-integration"
    description := "Integrates with GitHub APIs for repository operations"
    category := "integration"
    version := "1.0.0"
    validate := fun p =>
      match p "action", p "repository" with
      | some (JsValue.str _), some (JsValue.str _) => true
      | _, _ => false }

/-- A registry only ever populated through `registerTool`: every stored
tool sits under the key `tool.name` (`tools` is private and `tools.set` is
called nowhere else). -/
def RegistryWF (reg : Registry) : Prop :=
  ∀ n t, reg n = some t → t.name = n

theorem registryWF_empty : RegistryWF emptyRegistry := by
  intro n t h
  exact absurd h (by simp [emptyRegistry])

theorem registryWF_register {reg : Registry} (t : Tool)
    (h : RegistryWF reg) : RegistryWF (registerTool t reg) := by
  intro n t2 h2
  rw [registerTool] at h2
  by_cases hn : n = t.name
  · rw [if_pos hn] at h2
    rw [← Option.some.inj h2, hn]
  · rw [if_neg hn] at h2
    exact h n t2 h2

/-- Configuration read by the coordinator: `config.tools.maxConcurrent`,
`config.tools.timeoutMs`, plus the registry contents fixed at
initialization time (well-formed, as `registerTool` keeps it). -/
structure Config where
  maxConcurrent : Nat
  timeoutMs : Nat
  registry : Registry
  registryWF : RegistryWF registry

/-- An execution request: the arguments of one `executeTool` call
(`toolName`, `parameters`, `context`, `priority`; priority defaults to 5
at call sites).  `reqId` is a ghost identity for the submission. -/
structure Request where
  toolName : String
  parameters : ToolParameters
  context : AgentContext
  priority : Int
  reqId : Nat

/-- A backlog entry, mirroring `ToolExecution { tool, parameters, context,
priority }`; `req` bundles the latter three plus the tool name.  `arrival`
is a ghost arrival stamp recording enqueue order. -/
structure Entry where
  tool : Tool
  req : Request
  arrival : Nat

/-- Phase of an in-flight execution: between admission and the resolution
of `await tool.validate(params)`, or between the start of the
execute-vs-timeout race and its resolution. -/
inductive Phase
  | validating
  | racing
deriving DecidableEq

/-- One in-flight execution: its id in `runningExecutions`, the looked-up
tool, the request, and the current suspension phase. -/
structure Exec where
  execId : Nat
  tool : Tool
  req : Request
  phase : Phase

/-- The mutable coordinator state: `executionQueue`, `runningExecutions`,
the pending `setTimeout` retries scheduled by the at-capacity branch, and
ghost counters (`started` records the reqId each time a tool's `execute`
is invoked). -/
structure OrchestratorState where
  queue : List Entry
  running : List Exec
  retries : List Request
  nextExecId : Nat
  nextArrival : Nat
  nextReqId : Nat
  started : List Nat

/-- The state of a freshly constructed orchestrator. -/
def initialState : OrchestratorState :=
  { queue := [], running := [], retries := [], nextExecId := 0,
    nextArrival := 0, nextReqId := 0, started := [] }

/-- Comparator of the backlog sort: `(a, b) => b.priority - a.priority`,
i.e. descending priority. -/
def byPriorityDesc (a b : Entry) : Prop :=
  b.req.priority ≤ a.req.priority

instance : DecidableRel byPriorityDesc :=
  fun a b => Int.decLe _ _

/-- Enqueueing a backlog entry: `executionQueue.push(entry)` followed by
`executionQueue.sort((a, b) => b.priority - a.priority)`.
`Array.prototype.sort` is a stable sort, modelled by insertion sort. -/
def enqueue (e : Entry) (q : List Entry) : List Entry :=
  List.insertionSort byPriorityDesc (q ++ [e])

/-- Outcome of the synchronous prefix of `executeTool`: the thrown
`Tool not found` error, the at-capacity enqueue, or admission with a
fresh execution id. -/
inductive SubmitOutcome
  | notFound
  | queued
  | admitted (execId : Nat)
deriving DecidableEq

/-- The synchronous prefix of `executeTool` (up to the first `await`):
lookup the tool; if absent throw `Tool not found`; if at capacity, push a
`ToolExecution` onto the queue, sort it, and schedule a retry via
`setTimeout`; otherwise generate an execution id and add it to
`runningExecutions`. -/
def executeToolSync (cfg : Config) (r : Request) (s : OrchestratorState) :
    SubmitOutcome × OrchestratorState :=
  match cfg.registry r.toolName with
  | none => (SubmitOutcome.notFound, s)
  | some t =>
    if cfg.maxConcurrent ≤ s.running.length then
      (SubmitOutcome.queued,
       { s with
           queue := enqueue { tool := t, req := r, arrival := s.nextArrival } s.queue,
           nextArrival := s.nextArrival + 1,
           retries := s.retries ++ [r] })
    else
      (SubmitOutcome.admitted s.nextExecId,
       { s with
           running := s.running ++
             [{ execId := s.nextExecId, tool := t, req := r, phase := Phase.validating }],
           nextExecId := s.nextExecId + 1 })

/-- processQueue: if the queue is non-empty and the in-flight count is
below the maximum, shift the head entry and re-submit it through
`executeTool` (whose synchronous prefix runs immediately).  The source
passes `nextExecution.tool.name` as the tool name; for every queued entry
this is the stored request's `toolName` (`queued_toolName_eq`), because
the lookup that queued the entry succeeded in a well-formed registry. -/
def processQueue (cfg : Config) (s : OrchestratorState) : OrchestratorState :=
  match s.queue with
  | [] => s
  | e :: rest =>
    if s.running.length < cfg.maxConcurrent then
      (executeToolSync cfg e.req { s with queue := rest }).2
    else s

/-- The `finally` block of `executeTool`: delete the execution id from
`runningExecutions`, then run `processQueue`.  This runs on every terminal
path (returned result, thrown validation error, timeout, execute
rejection). -/
def completeExec (cfg : Config) (eid : Nat) (s : OrchestratorState) :
    OrchestratorState :=
  processQueue cfg
    { s with running := s.running.filter (fun x => x.execId != eid) }

/-- Resolution of `Promise.race([tool.execute(params),
createTimeoutPromise(timeoutMs)])`: the tool's promise resolved with a
result, the tool's promise rejected with an error message, or the timeout
promise rejected first.  `elapsed` is the wall-clock time between the
start of the race and its resolution (`Date.now() - startTime`). -/
inductive RaceOutcome
  | executed (r : ToolResult) (elapsed : Nat)
  | execThrew (msg : String) (elapsed : Nat)
  | timedOut (elapsed : Nat)

/-- The message of the error rejected by `createTimeoutPromise`. -/
def timeoutMessage (timeoutMs : Nat) : String :=
  "Tool execution timeout after " ++ toString timeoutMs ++ "ms"

/-- The message of the error thrown when `tool.validate` rejects. -/
def invalidParamsMessage (toolName : String) : String :=
  "Invalid parameters for tool: " ++ toolName

/-- The `catch` block of `executeTool`: any error thrown inside the `try`
is converted into a failure `ToolResult` carrying the error's message. -/
def errorResult (msg : String) : ToolResult :=
  { success := false, data := none,
    message := "Tool execution failed: " ++ msg,
    executionTime := 0, errors := some [msg] }

/-- The `ToolResult` returned to the caller for each resolution of the
execute-vs-timeout race: a resolved result is returned with its
`executionTime` field set to the measured duration; a rejection (tool
error or timeout) flows through the `catch` block. -/
def settleRace (timeoutMs : Nat) : RaceOutcome → ToolResult
  | RaceOutcome.executed r elapsed => { r with executionTime := elapsed }
  | RaceOutcome.execThrew msg _ => errorResult msg
  | RaceOutcome.timedOut _ => errorResult (timeoutMessage timeoutMs)

/-- The `ToolResult` returned to the caller when `tool.validate` rejects:
the thrown `Invalid parameters` error flows through the `catch` block. -/
def invalidParamsResult (toolName : String) : ToolResult :=
  errorResult (invalidParamsMessage toolName)

/-- One event-loop transition of the coordinator. -/
inductive Step (cfg : Config) : OrchestratorState → OrchestratorState → Prop
  /-- A caller invokes `executeTool` with a tool name, parameters, context
  and priority; the synchronous prefix runs.  The submission receives a
  fresh ghost `reqId`. -/
  | submit (name : String) (params : ToolParameters) (ctx : AgentContext)
      (prio : Int) (s s' : OrchestratorState) :
      s' = (executeToolSync cfg
              { toolName := name, parameters := params, context := ctx,
                priority := prio, reqId := s.nextReqId }
              { s with nextReqId := s.nextReqId + 1 }).2 →
      Step cfg s s'
  /-- A pending 1000 ms retry scheduled by the at-capacity branch fires and
  re-invokes `executeTool` with the original arguments. -/
  | retryFire (r : Request) (l1 l2 : List Request) (s s' : OrchestratorState) :
      s.retries = l1 ++ r :: l2 →
      s' = (executeToolSync cfg r { s with retries := l1 ++ l2 }).2 →
      Step cfg s s'
  /-- `await tool.validate(params)` resolves `true`: the execute-vs-timeout
  race starts, invoking the tool's `execute` (recorded in `started`). -/
  | validateOk (e : Exec) (l1 l2 : List Exec) (s s' : OrchestratorState) :
      s.running = l1 ++ e :: l2 →
      e.phase = Phase.validating →
      e.tool.validate e.req.parameters = true →
      s' = { s with
               running := l1 ++ { e with phase := Phase.racing } :: l2,
               started := e.req.reqId :: s.started } →
      Step cfg s s'
  /-- `await tool.validate(params)` resolves `false`: the
  `Invalid parameters` error is thrown, caught, and the `finally` block
  releases the slot and drains the queue. -/
  | validateFail (e : Exec) (l1 l2 : List Exec) (s s' : OrchestratorState) :
      s.running = l1 ++ e :: l2 →
      e.phase = Phase.validating →
      e.tool.validate e.req.parameters = false →
      s' = completeExec cfg e.execId s →
      Step cfg s s'
  /-- The execute-vs-timeout race settles (the tool resolved, the tool
  rejected, or the timeout fired).  Whatever the outcome, the `finally`
  block releases the slot and drains the queue. -/
  | raceDone (e : Exec) (l1 l2 : List Exec) (outcome : RaceOutcome)
      (s s' : OrchestratorState) :
      s.running = l1 ++ e :: l2 →
      e.phase = Phase.racing →
      s' = completeExec cfg e.execId s →
      Step cfg s s'

/-- Reachability from the freshly constructed orchestrator. -/
def Reachable (cfg : Config) : OrchestratorState → Prop :=
  Relation.ReflTransGen (Step cfg) initialState

/-! ### The backlog order -/

/-- Reference form of enqueueing into an already sorted backlog: the new
entry goes after every entry of greater or equal priority and before the
first entry of strictly smaller priority (the position a stable
descending-priority sort assigns to a freshly appended element). -/
def insertEntry (e : Entry) : List Entry → List Entry
  | [] => [e]
  | x :: xs =>
    if x.req.priority < e.req.priority then e :: x :: xs
    else x :: insertEntry e xs

theorem mem_insertEntry {y e : Entry} :
    ∀ {q : List Entry}, y ∈ insertEntry e q → y = e ∨ y ∈ q := by
  intro q
  induction q with
  | nil =>
    intro h
    simp only [insertEntry, List.mem_singleton] at h
    exact Or.inl h
  | cons x xs ih =>
    intro h
    by_cases hpe : x.req.priority < e.req.priority
    · rw [insertEntry, if_pos hpe] at h
      rcases List.mem_cons.mp h with h | h
      · exact Or.inl h
      · exact Or.inr h
    · rw [insertEntry, if_neg hpe] at h
      rcases List.mem_cons.mp h with h | h
      · exact Or.inr (h ▸ List.mem_cons_self x xs)
      · rcases ih h with h | h
        · exact Or.inl h
        · exact Or.inr (List.mem_cons_of_mem x h)

theorem insertEntry_of_lt (e : Entry) (xs : List Entry)
    (h : ∀ x ∈ xs, x.req.priority < e.req.priority) :
    insertEntry e xs = e :: xs := by
  cases xs with
  | nil => rfl
  | cons x xs => rw [insertEntry, if_pos (h x (List.mem_cons_self x xs))]

theorem orderedInsert_eq_cons (x : Entry) (l : List Entry)
    (h : ∀ y ∈ l, byPriorityDesc x y) :
    List.orderedInsert byPriorityDesc x l = x :: l := by
  cases l with
  | nil => rfl
  | cons y ys =>
    rw [List.orderedInsert, if_pos (h y (List.mem_cons_self y ys))]

/-- On an already sorted backlog, pushing an entry and stably re-sorting
by descending priority is the ordered insertion `insertEntry`. -/
theorem enqueue_eq_insertEntry (e : Entry) :
    ∀ q : List Entry, List.Sorted byPriorityDesc q →
      enqueue e q = insertEntry e q := by
  intro q
  induction q with
  | nil => intro _; rfl
  | cons x xs ih =>
    intro hs
    have hx : ∀ y ∈ xs, byPriorityDesc x y := (List.sorted_cons.mp hs).1
    have hxs : List.Sorted byPriorityDesc xs := (List.sorted_cons.mp hs).2
    have h1 : enqueue e (x :: xs)
        = List.orderedInsert byPriorityDesc x (enqueue e xs) := rfl
    rw [h1, ih hxs]
    by_cases hpe : x.req.priority < e.req.priority
    · have hall : ∀ y ∈ xs, y.req.priority < e.req.priority := fun y hy =>
        lt_of_le_of_lt (hx y hy) hpe
      rw [insertEntry_of_lt e xs hall, insertEntry, if_pos hpe,
        List.orderedInsert, if_neg (by simpa [byPriorityDesc] using hpe),
        orderedInsert_eq_cons x xs hx]
    · rw [insertEntry, if_neg hpe]
      refine orderedInsert_eq_cons x _ (fun y hy => ?_)
      rcases mem_insertEntry hy with rfl | hy
      · exact not_lt.mp hpe
      · exact hx y hy

/-- The strict order the backlog maintains: strictly greater priority
first; among equal priorities, earlier (ghost) arrival first. -/
def lexBefore (a b : Entry) : Prop :=
  b.req.priority < a.req.priority ∨
    (a.req.priority = b.req.priority ∧ a.arrival < b.arrival)

theorem sorted_of_pairwise_lex {q : List Entry}
    (h : q.Pairwise lexBefore) : List.Sorted byPriorityDesc q := by
  refine h.imp (fun {a b} hab => ?_)
  rcases hab with h | ⟨h, _⟩
  · exact le_of_lt h
  · exact le_of_eq h.symm

theorem pairwise_insertEntry (e : Entry) :
    ∀ q : List Entry, q.Pairwise lexBefore →
      (∀ x ∈ q, x.arrival < e.arrival) →
      (insertEntry e q).Pairwise lexBefore := by
  intro q
  induction q with
  | nil => intro _ _; simp [insertEntry]
  | cons x xs ih =>
    intro hp ha
    rcases List.pairwise_cons.mp hp with ⟨hxall, hxs⟩
    by_cases hpe : x.req.priority < e.req.priority
    · rw [insertEntry, if_pos hpe]
      refine List.Pairwise.cons (fun y hy => ?_) hp
      rcases List.mem_cons.mp hy with rfl | hy
      · exact Or.inl hpe
      · rcases hxall y hy with h | ⟨h1, _⟩
        · exact Or.inl (h.trans hpe)
        · exact Or.inl (h1 ▸ hpe)
    · rw [insertEntry, if_neg hpe]
      refine List.Pairwise.cons (fun y hy => ?_)
        (ih hxs (fun z hz => ha z (List.mem_cons_of_mem x hz)))
      rcases mem_insertEntry hy with rfl | hy
      · rcases lt_or_eq_of_le (not_lt.mp hpe) with h | h
        · exact Or.inl h
        · exact Or.inr ⟨h.symm, ha x (List.mem_cons_self x xs)⟩
      · exact hxall y hy

/-! ### Case-analysis equations for the coordinator's transitions -/

theorem executeToolSync_eq_notFound {cfg : Config} {r : Request}
    (s : OrchestratorState) (h : cfg.registry r.toolName = none) :
    executeToolSync cfg r s = (SubmitOutcome.notFound, s) := by
  rw [executeToolSync, h]

theorem executeToolSync_eq_queued {cfg : Config} {r : Request} {t : Tool}
    (s : OrchestratorState) (h : cfg.registry r.toolName = some t)
    (hc : cfg.maxConcurrent ≤ s.running.length) :
    executeToolSync cfg r s =
      (SubmitOutcome.queued,
       { s with
           queue := enqueue { tool := t, req := r, arrival := s.nextArrival } s.queue,
           nextArrival := s.nextArrival + 1,
           retries := s.retries ++ [r] }) := by
  simp only [executeToolSync, h]
  rw [if_pos hc]

theorem executeToolSync_eq_admitted {cfg : Config} {r : Request} {t : Tool}
    (s : OrchestratorState) (h : cfg.registry r.toolName = some t)
    (hc : s.running.length < cfg.maxConcurrent) :
    executeToolSync cfg r s =
      (SubmitOutcome.admitted s.nextExecId,
       { s with
           running := s.running ++
             [{ execId := s.nextExecId, tool := t, req := r, phase := Phase.validating }],
           nextExecId := s.nextExecId + 1 }) := by
  simp only [executeToolSync, h]
  rw [if_neg (not_le.mpr hc)]

theorem processQueue_eq_of_nil {cfg : Config} {s : OrchestratorState}
    (h : s.queue = []) : processQueue cfg s = s := by
  simp only [processQueue, h]

theorem processQueue_eq_of_full {cfg : Config} {s : OrchestratorState}
    (hc : cfg.maxConcurrent ≤ s.running.length) :
    processQueue cfg s = s := by
  cases h : s.queue with
  | nil => simp only [processQueue, h]
  | cons e rest =>
    simp only [processQueue, h]
    rw [if_neg (not_lt.mpr hc)]

theorem processQueue_eq_of_cons {cfg : Config} {s : OrchestratorState}
    {e : Entry} {rest : List Entry} (h : s.queue = e :: rest)
    (hc : s.running.length < cfg.maxConcurrent) :
    processQueue cfg s = (executeToolSync cfg e.req { s with queue := rest }).2 := by
  simp only [processQueue, h]
  rw [if_pos hc]

/-! ### The inductive invariant of reachable coordinator states -/

theorem filter_execId_middle (e : Exec) (l1 l2 : List Exec)
    (h : ((l1 ++ e :: l2).map Exec.execId).Nodup) :
    (l1 ++ e :: l2).filter (fun x => x.execId != e.execId) = l1 ++ l2 := by
  simp only [List.map_append, List.map_cons, List.nodup_append,
    List.nodup_cons] at h
  obtain ⟨h1, ⟨he2, h2⟩, h3⟩ := h
  have hne1 : ∀ x ∈ l1, (x.execId != e.execId) = true := by
    intro x hx
    have hne : x.execId ≠ e.execId := by
      intro hEq
      exact (h3 (List.mem_map_of_mem Exec.execId hx))
        (by rw [hEq]; exact List.mem_cons_self _ _)
    simpa using hne
  have hne2 : ∀ x ∈ l2, (x.execId != e.execId) = true := by
    intro x hx
    have hne : x.execId ≠ e.execId := fun hEq =>
      he2 (hEq ▸ List.mem_map_of_mem Exec.execId hx)
    simpa using hne
  rw [List.filter_append, List.filter_eq_self.mpr hne1, List.filter_cons]
  simp only [bne_self_eq_false, Bool.false_eq_true, if_false,
    List.filter_eq_self.mpr hne2]

/-- The inductive invariant, except for capacity saturation (which is
temporarily broken between the release of a slot and the drain step). -/
structure WInv (cfg : Config) (s : OrchestratorState) : Prop where
  bound : s.running.length ≤ cfg.maxConcurrent
  sortedQueue : s.queue.Pairwise lexBefore
  arrivalsLt : ∀ e ∈ s.queue, e.arrival < s.nextArrival
  execIdsLt : ∀ x ∈ s.running, x.execId < s.nextExecId
  execIdsNodup : (s.running.map Exec.execId).Nodup
  queueRegistered : ∀ e ∈ s.queue, cfg.registry e.req.toolName = some e.tool

/-- Capacity saturation: a non-empty backlog implies the in-flight set sits
at the configured maximum (so free capacity is never wasted while requests
wait, and fresh submissions can never jump over a non-empty backlog). -/
def FullWhenQueued (cfg : Config) (s : OrchestratorState) : Prop :=
  s.queue ≠ [] → s.running.length = cfg.maxConcurrent

/-- The inductive invariant of reachable coordinator states. -/
structure OrchInv (cfg : Config) (s : OrchestratorState) extends WInv cfg s : Prop where
  fullWhenQueued : FullWhenQueued cfg s

theorem winv_executeToolSync (cfg : Config) (r : Request)
    (s : OrchestratorState) (h : WInv cfg s) :
    WInv cfg (executeToolSync cfg r s).2 := by
  cases hreg : cfg.registry r.toolName with
  | none => rw [executeToolSync_eq_notFound s hreg]; exact h
  | some t =>
    by_cases hc : cfg.maxConcurrent ≤ s.running.length
    · rw [executeToolSync_eq_queued s hreg hc]
      have hq : enqueue { tool := t, req := r, arrival := s.nextArrival } s.queue
          = insertEntry { tool := t, req := r, arrival := s.nextArrival } s.queue :=
        enqueue_eq_insertEntry _ _ (sorted_of_pairwise_lex h.sortedQueue)
      refine ⟨h.bound, ?_, ?_, h.execIdsLt, h.execIdsNodup, ?_⟩
      · show (enqueue _ s.queue).Pairwise lexBefore
        rw [hq]
        exact pairwise_insertEntry _ s.queue h.sortedQueue h.arrivalsLt
      · intro x hx
        rw [show ({ s with
            queue := enqueue { tool := t, req := r, arrival := s.nextArrival } s.queue,
            nextArrival := s.nextArrival + 1,
            retries := s.retries ++ [r] } : OrchestratorState).queue
          = enqueue { tool := t, req := r, arrival := s.nextArrival } s.queue from rfl,
          hq] at hx
        rcases mem_insertEntry hx with rfl | hx
        · exact Nat.lt_succ_self _
        · exact (h.arrivalsLt x hx).trans (Nat.lt_succ_self _)
      · intro x hx
        rw [show ({ s with
            queue := enqueue { tool := t, req := r, arrival := s.nextArrival } s.queue,
            nextArrival := s.nextArrival + 1,
            retries := s.retries ++ [r] } : OrchestratorState).queue
          = enqueue { tool := t, req := r, arrival := s.nextArrival } s.queue from rfl,
          hq] at hx
        rcases mem_insertEntry hx with rfl | hx
        · exact hreg
        · exact h.queueRegistered x hx
    · rw [executeToolSync_eq_admitted s hreg (not_le.mp hc)]
      refine ⟨?_, h.sortedQueue, h.arrivalsLt, ?_, ?_, h.queueRegistered⟩
      · show (s.running ++ [_]).length ≤ cfg.maxConcurrent
        rw [List.length_append]
        have := not_le.mp hc
        simp only [List.length_singleton]
        omega
      · intro x hx
        show x.execId < s.nextExecId + 1
        rcases List.mem_append.mp hx with hx | hx
        · exact (h.execIdsLt x hx).trans (Nat.lt_succ_self _)
        · rw [List.mem_singleton.mp hx]
          exact Nat.lt_succ_self _
      · show ((s.running ++ [_]).map Exec.execId).Nodup
        rw [List.map_append]
        rw [List.nodup_append]
        refine ⟨h.execIdsNodup, List.nodup_singleton _, ?_⟩
        intro a ha hb
        rcases List.mem_map.mp ha with ⟨x, hx, rfl⟩
        have := h.execIdsLt x hx
        simp only [List.map_cons, List.map_nil, List.mem_singleton] at hb
        omega

theorem full_executeToolSync (cfg : Config) (r : Request)
    (s : OrchestratorState) (h : WInv cfg s) (hf : FullWhenQueued cfg s) :
    FullWhenQueued cfg (executeToolSync cfg r s).2 := by
  cases hreg : cfg.registry r.toolName with
  | none => rw [executeToolSync_eq_notFound s hreg]; exact hf
  | some t =>
    by_cases hc : cfg.maxConcurrent ≤ s.running.length
    · rw [executeToolSync_eq_queued s hreg hc]
      intro _
      exact le_antisymm h.bound hc
    · rw [executeToolSync_eq_admitted s hreg (not_le.mp hc)]
      intro hne
      exact absurd (hf hne) (Nat.ne_of_lt (not_le.mp hc))

theorem inv_executeToolSync (cfg : Config) (r : Request)
    (s : OrchestratorState) (h : OrchInv cfg s) :
    OrchInv cfg (executeToolSync cfg r s).2 :=
  ⟨winv_executeToolSync cfg r s h.toWInv,
   full_executeToolSync cfg r s h.toWInv h.fullWhenQueued⟩

theorem winv_processQueue (cfg : Config) (s : OrchestratorState)
    (h : WInv cfg s) : WInv cfg (processQueue cfg s) := by
  cases hq : s.queue with
  | nil => rw [processQueue_eq_of_nil hq]; exact h
  | cons e rest =>
    by_cases hc : s.running.length < cfg.maxConcurrent
    · rw [processQueue_eq_of_cons hq hc]
      apply winv_executeToolSync
      refine ⟨h.bound, ?_, ?_, h.execIdsLt, h.execIdsNodup, ?_⟩
      · exact (List.pairwise_cons.mp (hq ▸ h.sortedQueue)).2
      · intro x hx
        exact h.arrivalsLt x (by rw [hq]; exact List.mem_cons_of_mem e hx)
      · intro x hx
        exact h.queueRegistered x (by rw [hq]; exact List.mem_cons_of_mem e hx)
    · rw [processQueue_eq_of_full (not_lt.mp hc)]; exact h

theorem inv_completeExec (cfg : Config) (s : OrchestratorState)
    (e : Exec) (l1 l2 : List Exec) (h : OrchInv cfg s)
    (hrun : s.running = l1 ++ e :: l2) :
    OrchInv cfg (completeExec cfg e.execId s) := by
  have hfilter : s.running.filter (fun x => x.execId != e.execId) = l1 ++ l2 := by
    rw [hrun]
    exact filter_execId_middle e l1 l2 (hrun ▸ h.execIdsNodup)
  have hce : completeExec cfg e.execId s
      = processQueue cfg { s with running := l1 ++ l2 } := by
    rw [completeExec, hfilter]
  have hlen : s.running.length = l1.length + l2.length + 1 := by
    rw [hrun]; simp [List.length_append]; omega
  have h1 : WInv cfg { s with running := l1 ++ l2 } := by
    refine ⟨?_, h.sortedQueue, h.arrivalsLt, ?_, ?_, h.queueRegistered⟩
    · show (l1 ++ l2).length ≤ cfg.maxConcurrent
      have := h.bound
      rw [List.length_append]
      omega
    · intro x hx
      refine h.execIdsLt x ?_
      rw [hrun]
      rcases List.mem_append.mp hx with hx | hx
      · exact List.mem_append_left _ hx
      · exact List.mem_append_right _ (List.mem_cons_of_mem e hx)
    · show ((l1 ++ l2).map Exec.execId).Nodup
      refine List.Nodup.sublist (List.Sublist.map Exec.execId ?_) (hrun ▸ h.execIdsNodup)
      exact List.Sublist.append_left (List.sublist_cons_self e l2) l1
  rw [hce]
  refine ⟨winv_processQueue cfg _ h1, ?_⟩
  cases hq : s.queue with
  | nil =>
    rw [processQueue_eq_of_nil rfl]
    intro hne
    exact absurd rfl hne
  | cons hd rest =>
    have hfull : s.running.length = cfg.maxConcurrent :=
      h.fullWhenQueued (by rw [hq]; exact List.cons_ne_nil hd rest)
    have hc : (l1 ++ l2).length < cfg.maxConcurrent := by
      rw [List.length_append]
      omega
    rw [processQueue_eq_of_cons rfl hc]
    have hreg : cfg.registry hd.req.toolName = some hd.tool :=
      h.queueRegistered hd (by rw [hq]; exact List.mem_cons_self hd rest)
    rw [executeToolSync_eq_admitted _ hreg hc]
    intro _
    show ((l1 ++ l2) ++ [_]).length = cfg.maxConcurrent
    rw [List.length_append, List.length_append]
    simp only [List.length_singleton]
    omega

theorem inv_step {cfg : Config} {s s' : OrchestratorState}
    (h : OrchInv cfg s) (hst : Step cfg s s') : OrchInv cfg s' := by
  cases hst with
  | submit name params ctx prio _ _ heq =>
    subst heq
    exact inv_executeToolSync cfg _ _
      ⟨⟨h.bound, h.sortedQueue, h.arrivalsLt, h.execIdsLt, h.execIdsNodup,
        h.queueRegistered⟩, h.fullWhenQueued⟩
  | retryFire r l1 l2 _ _ hret heq =>
    subst heq
    exact inv_executeToolSync cfg _ _
      ⟨⟨h.bound, h.sortedQueue, h.arrivalsLt, h.execIdsLt, h.execIdsNodup,
        h.queueRegistered⟩, h.fullWhenQueued⟩
  | validateOk e l1 l2 _ _ hrun hph hval heq =>
    subst heq
    have hlen : (l1 ++ { e with phase := Phase.racing } :: l2).length
        = s.running.length := by
      rw [hrun]; simp
    have hmap : ((l1 ++ { e with phase := Phase.racing } :: l2).map Exec.execId)
        = (s.running.map Exec.execId) := by
      rw [hrun]; simp
    refine ⟨⟨?_, h.sortedQueue, h.arrivalsLt, ?_, ?_, h.queueRegistered⟩, ?_⟩
    · show (l1 ++ { e with phase := Phase.racing } :: l2).length ≤ cfg.maxConcurrent
      rw [hlen]; exact h.bound
    · intro x hx
      rcases List.mem_append.mp hx with hx | hx
      · exact h.execIdsLt x (by rw [hrun]; exact List.mem_append_left _ hx)
      · rcases List.mem_cons.mp hx with rfl | hx
        · exact h.execIdsLt e (by rw [hrun]; exact List.mem_append_right _ (List.mem_cons_self e l2))
        · exact h.execIdsLt x
            (by rw [hrun]; exact List.mem_append_right _ (List.mem_cons_of_mem e hx))
    · show ((l1 ++ { e with phase := Phase.racing } :: l2).map Exec.execId).Nodup
      rw [hmap]; exact h.execIdsNodup
    · intro hne
      show (l1 ++ { e with phase := Phase.racing } :: l2).length = cfg.maxConcurrent
      rw [hlen]; exact h.fullWhenQueued hne
  | validateFail e l1 l2 _ _ hrun hph hval heq =>
    subst heq
    exact inv_completeExec cfg s e l1 l2 h hrun
  | raceDone e l1 l2 outcome _ _ hrun hph heq =>
    subst heq
    exact inv_completeExec cfg s e l1 l2 h hrun

theorem inv_init (cfg : Config) : OrchInv cfg initialState := by
  refine ⟨⟨?_, ?_, ?_, ?_, ?_, ?_⟩, ?_⟩ <;>
    simp [initialState, FullWhenQueued]

theorem inv_reachable {cfg : Config} {s : OrchestratorState}
    (h : Reachable cfg s) : OrchInv cfg s := by
  induction h with
  | refl => exact inv_init cfg
  | tail hr hst ih => exact inv_step ih hst

/-- For every backlogged entry the stored request's `toolName` is the
queued tool's own `name`: the lookup that queued it succeeded, and the
registry keys every tool under its name. -/
theorem queued_toolName_eq {cfg : Config} {s : OrchestratorState}
    (h : OrchInv cfg s) : ∀ e ∈ s.queue, e.req.toolName = e.tool.name := by
  intro e he
  exact (cfg.registryWF _ _ (h.queueRegistered e he)).symm

/-! ### Where in-flight executions come from -/

theorem executeToolSync_mem_running {cfg : Config} {r : Request}
    {s0 : OrchestratorState} {x : Exec}
    (hx : x ∈ (executeToolSync cfg r s0).2.running) :
    x ∈ s0.running ∨
      (x.execId = s0.nextExecId ∧ x.req = r ∧
        s0.running.length < cfg.maxConcurrent ∧
        cfg.registry r.toolName = some x.tool) := by
  cases hreg : cfg.registry r.toolName with
  | none =>
    rw [executeToolSync_eq_notFound _ hreg] at hx
    exact Or.inl hx
  | some t =>
    by_cases hc : cfg.maxConcurrent ≤ s0.running.length
    · rw [executeToolSync_eq_queued _ hreg hc] at hx
      exact Or.inl hx
    · rw [executeToolSync_eq_admitted _ hreg (not_le.mp hc)] at hx
      rcases List.mem_append.mp hx with hx | hx
      · exact Or.inl hx
      · obtain rfl := List.mem_singleton.mp hx
        exact Or.inr ⟨rfl, rfl, not_le.mp hc, rfl⟩

theorem processQueue_mem_running {cfg : Config} {s : OrchestratorState} {x : Exec}
    (hqreg : ∀ e ∈ s.queue, cfg.registry e.req.toolName = some e.tool)
    (hx : x ∈ (processQueue cfg s).running) :
    x ∈ s.running ∨
      (x.execId = s.nextExecId ∧
        ∃ a rest, s.queue = { tool := x.tool, req := x.req, arrival := a } :: rest) := by
  cases hq : s.queue with
  | nil =>
    rw [processQueue_eq_of_nil hq] at hx
    exact Or.inl hx
  | cons hd rest =>
    by_cases hc : s.running.length < cfg.maxConcurrent
    · rw [processQueue_eq_of_cons hq hc] at hx
      rcases executeToolSync_mem_running hx with hx | ⟨h1, h2, _, h4⟩
      · exact Or.inl hx
      · have hhd : cfg.registry hd.req.toolName = some hd.tool :=
          hqreg hd (by rw [hq]; exact List.mem_cons_self hd rest)
        have htool : x.tool = hd.tool := by
          have := h4.symm.trans hhd
          exact Option.some.inj this
        refine Or.inr ⟨h1, hd.arrival, rest, ?_⟩
        rw [h2, htool]
    · rw [processQueue_eq_of_full (not_lt.mp hc)] at hx
      exact Or.inl hx

theorem processQueue_running_sub {cfg : Config} {s : OrchestratorState} {x : Exec}
    (hx : x ∈ (processQueue cfg s).running) :
    x ∈ s.running ∨ x.execId = s.nextExecId := by
  cases hq : s.queue with
  | nil =>
    rw [processQueue_eq_of_nil hq] at hx
    exact Or.inl hx
  | cons hd rest =>
    by_cases hc : s.running.length < cfg.maxConcurrent
    · rw [processQueue_eq_of_cons hq hc] at hx
      rcases executeToolSync_mem_running hx with hx | ⟨h1, _⟩
      · exact Or.inl hx
      · exact Or.inr h1
    · rw [processQueue_eq_of_full (not_lt.mp hc)] at hx
      exact Or.inl hx

/-- After the `finally` block runs for execution id `eid`, no in-flight
execution carries that id any more (the id is strictly older than any id
the drain step can mint). -/
theorem completeExec_removes {cfg : Config} {s : OrchestratorState} {eid : Nat}
    (hlt : eid < s.nextExecId) :
    ∀ x ∈ (completeExec cfg eid s).running, x.execId ≠ eid := by
  intro x hx
  rw [completeExec] at hx
  rcases processQueue_running_sub hx with hx | hx
  · have hp := (List.mem_filter.mp hx).2
    simpa using hp
  · have hid : x.execId = s.nextExecId := hx
    omega

/-! ### A concrete scenario: maxConcurrent 1, the code-analysis tool -/

/-- A coordinator with capacity 1 and the code-analysis tool registered. -/
def cfg1 : Config :=
  { maxConcurrent := 1, timeoutMs := 30000,
    registry := registerTool codeAnalysisTool emptyRegistry,
    registryWF := registryWF_register codeAnalysisTool registryWF_empty }

def ctx0 : AgentContext :=
  { sessionId := "session-1", userId := "user-1", timestamp := 0, metadata := [] }

/-- Parameters the code-analysis tool accepts. -/
def goodParams : ToolParameters :=
  fun k => if k = "code" then some (JsValue.str "let x = 1") else none

/-- Parameters the code-analysis tool rejects (no `code` key). -/
def badParams : ToolParameters := fun _ => none

def reqA : Request :=
  { toolName := "code-analysis", parameters := goodParams, context := ctx0,
    priority := 5, reqId := 0 }

def reqB : Request :=
  { toolName := "code-analysis", parameters := goodParams, context := ctx0,
    priority := 5, reqId := 1 }

def reqBad : Request :=
  { toolName := "code-analysis", parameters := badParams, context := ctx0,
    priority := 5, reqId := 1 }

def execA : Exec :=
  { execId := 0, tool := codeAnalysisTool, req := reqA, phase := Phase.validating }

/-- After submitting `reqA`: admitted, in-flight, awaiting validation. -/
def st1 : OrchestratorState :=
  { queue := [], running := [execA], retries := [], nextExecId := 1,
    nextArrival := 0, nextReqId := 1, started := [] }

theorem reach_st1 : Reachable cfg1 st1 :=
  Relation.ReflTransGen.tail Relation.ReflTransGen.refl
    (Step.submit "code-analysis" goodParams ctx0 5 initialState st1 rfl)

def entryB : Entry := { tool := codeAnalysisTool, req := reqB, arrival := 0 }

/-- After also submitting `reqB` at capacity: backlogged, retry pending. -/
def st2 : OrchestratorState :=
  { queue := [entryB], running := [execA], retries := [reqB], nextExecId := 1,
    nextArrival := 1, nextReqId := 2, started := [] }

theorem reach_st2 : Reachable cfg1 st2 :=
  Relation.ReflTransGen.tail reach_st1
    (Step.submit "code-analysis" goodParams ctx0 5 st1 st2 rfl)

def entryBad : Entry := { tool := codeAnalysisTool, req := reqBad, arrival := 0 }

/-- After submitting `reqBad` (invalid parameters) at capacity: the
invalid-parameters request is sitting in the backlog. -/
def stBad : OrchestratorState :=
  { queue := [entryBad], running := [execA], retries := [reqBad], nextExecId := 1,
    nextArrival := 1, nextReqId := 2, started := [] }

theorem reach_stBad : Reachable cfg1 stBad :=
  Relation.ReflTransGen.tail reach_st1
    (Step.submit "code-analysis" badParams ctx0 5 st1 stBad rfl)

/-- `reqA` passed validation; its execute-vs-timeout race is running. -/
def st3 : OrchestratorState :=
  { queue := [entryB],
    running := [{ execId := 0, tool := codeAnalysisTool, req := reqA, phase := Phase.racing }],
    retries := [reqB], nextExecId := 1, nextArrival := 1, nextReqId := 2,
    started := [0] }

theorem reach_st3 : Reachable cfg1 st3 :=
  Relation.ReflTransGen.tail reach_st2
    (Step.validateOk execA [] [] st2 st3 rfl rfl rfl rfl)

def execB1 : Exec :=
  { execId := 1, tool := codeAnalysisTool, req := reqB, phase := Phase.validating }

/-- `reqA` finished; the release-and-drain step admitted the backlogged
`reqB`, whose 1000 ms retry is still pending. -/
def st4 : OrchestratorState :=
  { queue := [], running := [execB1], retries := [reqB], nextExecId := 2,
    nextArrival := 1, nextReqId := 2, started := [0] }

theorem reach_st4 : Reachable cfg1 st4 :=
  Relation.ReflTransGen.tail reach_st3
    (Step.raceDone { execId := 0, tool := codeAnalysisTool, req := reqA, phase := Phase.racing }
      [] [] (RaceOutcome.timedOut 100) st3 st4 rfl rfl rfl)

def entryDup : Entry := { tool := codeAnalysisTool, req := reqB, arrival := 1 }

/-- The pending retry for `reqB` fired while `reqB` itself was already
running: the coordinator is at capacity, so the very same submission is
re-enqueued — `reqB` is now simultaneously in-flight and backlogged. -/
def stDup : OrchestratorState :=
  { queue := [entryDup], running := [execB1], retries := [reqB], nextExecId := 2,
    nextArrival := 2, nextReqId := 2, started := [0] }

theorem reach_stDup : Reachable cfg1 stDup :=
  Relation.ReflTransGen.tail reach_st4
    (Step.retryFire reqB [] [] st4 stDup rfl rfl)

/-- Alternative continuation from `st4`: `reqB` passed validation and its
race is running. -/
def st5 : OrchestratorState :=
  { queue := [],
    running := [{ execId := 1, tool := codeAnalysisTool, req := reqB, phase := Phase.racing }],
    retries := [reqB], nextExecId := 2, nextArrival := 1, nextReqId := 2,
    started := [1, 0] }

theorem reach_st5 : Reachable cfg1 st5 :=
  Relation.ReflTransGen.tail reach_st4
    (Step.validateOk execB1 [] [] st4 st5 rfl rfl rfl rfl)

/-- `reqB` finished; nothing left in flight, but its retry is pending. -/
def st6 : OrchestratorState :=
  { queue := [], running := [], retries := [reqB], nextExecId := 2,
    nextArrival := 1, nextReqId := 2, started := [1, 0] }

theorem reach_st6 : Reachable cfg1 st6 :=
  Relation.ReflTransGen.tail reach_st5
    (Step.raceDone { execId := 1, tool := codeAnalysisTool, req := reqB, phase := Phase.racing }
      [] [] (RaceOutcome.executed
        { success := true, data := none, message := "Code analysis completed",
          executionTime := 0, errors := none } 40) st5 st6 rfl rfl rfl)

/-- The pending retry for the already-completed `reqB` fired with free
capacity: the same submission is admitted a second time. -/
def st7 : OrchestratorState :=
  { queue := [],
    running := [{ execId := 2, tool := codeAnalysisTool, req := reqB, phase := Phase.validating }],
    retries := [], nextExecId := 3, nextArrival := 1, nextReqId := 2,
    started := [1, 0] }

theorem reach_st7 : Reachable cfg1 st7 :=
  Relation.ReflTransGen.tail reach_st6
    (Step.retryFire reqB [] [] st6 st7 rfl rfl)

/-- The re-admitted `reqB` passed validation again: its `execute` has now
been invoked twice for the one submission (ghost `started` = [1, 1, 0]). -/
def st8 : OrchestratorState :=
  { queue := [],
    running := [{ execId := 2, tool := codeAnalysisTool, req := reqB, phase := Phase.racing }],
    retries := [], nextExecId := 3, nextArrival := 1, nextReqId := 2,
    started := [1, 1, 0] }

theorem reach_st8 : Reachable cfg1 st8 :=
  Relation.ReflTransGen.tail reach_st7
    (Step.validateOk
      { execId := 2, tool := codeAnalysisTool, req := reqB, phase := Phase.validating }
      [] [] st7 st8 rfl rfl rfl rfl)

/-! ### Claim theorems -/

theorem errorResult_message_ne (msg : String) : (errorResult msg).message ≠ "" := by
  intro h
  have h2 := congrArg String.length h
  rw [show (errorResult msg).message = "Tool execution failed: " ++ msg from rfl,
    String.length_append] at h2
  have h3 : ("Tool execution failed: ").length = 23 := rfl
  have h4 : ("" : String).length = 0 := rfl
  omega

/-- C1: Bounded concurrency: in every reachable coordinator state, the
number of simultaneously in-flight executions (the size of
`runningExecutions`) never exceeds `config.tools.maxConcurrent`. -/
theorem bounded_concurrency {cfg : Config} {s : OrchestratorState}
    (h : Reachable cfg s) : s.running.length ≤ cfg.maxConcurrent :=
  (inv_reachable h).bound

theorem bounded_concurrency_witness :
    st2.running.length ≤ cfg1.maxConcurrent :=
  bounded_concurrency reach_st2

/-- C3: Unknown-tool fail-fast: a submission naming an unregistered tool
fails immediately (the thrown `Tool not found` error, modelled by the
`notFound` outcome), with the whole coordinator state unchanged — in
particular the backlog length and `runningExecutions` are untouched. -/
theorem toolNotFound_fail_fast {cfg : Config} {r : Request}
    (s : OrchestratorState) (h : cfg.registry r.toolName = none) :
    executeToolSync cfg r s = (SubmitOutcome.notFound, s) ∧
    (executeToolSync cfg r s).2.queue.length = s.queue.length ∧
    (executeToolSync cfg r s).2.running = s.running := by
  have he := executeToolSync_eq_notFound s h
  exact ⟨he, by rw [he], by rw [he]⟩

def reqMissing : Request :=
  { toolName := "missing-tool", parameters := goodParams, context := ctx0,
    priority := 5, reqId := 0 }

theorem toolNotFound_fail_fast_witness :
    executeToolSync cfg1 reqMissing st2 = (SubmitOutcome.notFound, st2) :=
  (toolNotFound_fail_fast st2 rfl).1

/-- C5: No capacity leak: for an in-flight execution `e` of a reachable
state, the `finally` block removes exactly `e`'s id from
`runningExecutions` (the in-flight count returns to its pre-admission
value) and then runs the drain step; both terminal transitions — the race
settling with any outcome (success, tool failure, or timeout) and the
thrown validation error — take exactly this path. -/
theorem release_and_drain {cfg : Config} {s : OrchestratorState} {e : Exec}
    (hreach : Reachable cfg s) (l1 l2 : List Exec)
    (hrun : s.running = l1 ++ e :: l2) :
    s.running.filter (fun x => x.execId != e.execId) = l1 ++ l2 ∧
    (l1 ++ l2).length + 1 = s.running.length ∧
    completeExec cfg e.execId s
      = processQueue cfg { s with running := l1 ++ l2 } ∧
    (∀ x ∈ (completeExec cfg e.execId s).running, x.execId ≠ e.execId) ∧
    (e.phase = Phase.racing →
      ∀ outcome : RaceOutcome, Step cfg s (completeExec cfg e.execId s)) ∧
    (e.phase = Phase.validating → e.tool.validate e.req.parameters = false →
      Step cfg s (completeExec cfg e.execId s)) := by
  have hinv := inv_reachable hreach
  have hfilter : s.running.filter (fun x => x.execId != e.execId) = l1 ++ l2 := by
    rw [hrun]
    exact filter_execId_middle e l1 l2 (hrun ▸ hinv.execIdsNodup)
  have hlen : (l1 ++ l2).length + 1 = s.running.length := by
    rw [hrun]
    simp only [List.length_append, List.length_cons]
    omega
  refine ⟨hfilter, hlen, ?_, ?_, ?_, ?_⟩
  · rw [completeExec, hfilter]
  · exact completeExec_removes
      (hinv.execIdsLt e (by rw [hrun]; exact List.mem_append_right _ (List.mem_cons_self e l2)))
  · intro hph outcome
    exact Step.raceDone e l1 l2 outcome s _ hrun hph rfl
  · intro hph hval
    exact Step.validateFail e l1 l2 s _ hrun hph hval rfl

theorem release_and_drain_witness :
    completeExec cfg1 0 st1 = processQueue cfg1 { st1 with running := [] } :=
  (release_and_drain (e := execA) reach_st1 [] [] rfl).2.2.1

/-- C8: Registry last-write-wins: `registerTool` inserts the tool keyed by
its name, overwriting any prior registration under that name without an
error, leaves other names untouched, and a subsequent lookup of the name
(as `executeTool` performs) returns the most recently registered tool. -/
theorem registerTool_last_write_wins (reg : Registry) (t : Tool) :
    registerTool t reg t.name = some t ∧
    (∀ n, n ≠ t.name → registerTool t reg n = reg n) ∧
    (∀ t0, reg t.name = some t0 → registerTool t reg t.name = some t) := by
  refine ⟨by simp [registerTool], fun n hn => by simp [registerTool, hn],
    fun t0 _ => by simp [registerTool]⟩

def codeAnalysisToolV2 : Tool :=
  { codeAnalysisTool with version := "2.0.0" }

theorem registerTool_last_write_wins_witness :
    registerTool codeAnalysisToolV2 (registerTool codeAnalysisTool emptyRegistry)
      codeAnalysisToolV2.name = some codeAnalysisToolV2 ∧
    registerTool codeAnalysisTool emptyRegistry "github-integration"
      = emptyRegistry "github-integration" :=
  ⟨(registerTool_last_write_wins (registerTool codeAnalysisTool emptyRegistry)
      codeAnalysisToolV2).2.2 codeAnalysisTool rfl,
   (registerTool_last_write_wins emptyRegistry codeAnalysisTool).2.1
      "github-integration" (by decide)⟩

/-- C10: Single-promotion drain: `processQueue` leaves the state unchanged
when the queue is empty or the coordinator is at capacity; otherwise it
removes exactly the head entry and re-submits it through `executeTool`
(admitting it when its tool resolves, silently dropping it when the lookup
fails), promoting at most one backlogged entry per invocation. -/
theorem processQueue_single_promotion (cfg : Config) (s : OrchestratorState) :
    (s.queue = [] → processQueue cfg s = s) ∧
    (cfg.maxConcurrent ≤ s.running.length → processQueue cfg s = s) ∧
    (∀ e rest t, s.queue = e :: rest → s.running.length < cfg.maxConcurrent →
      cfg.registry e.req.toolName = some t →
      processQueue cfg s =
        { s with
            queue := rest
            running := s.running ++
              [{ execId := s.nextExecId, tool := t, req := e.req,
                 phase := Phase.validating }]
            nextExecId := s.nextExecId + 1 }) ∧
    (∀ e rest, s.queue = e :: rest → s.running.length < cfg.maxConcurrent →
      cfg.registry e.req.toolName = none →
      processQueue cfg s = { s with queue := rest }) := by
  refine ⟨fun h => processQueue_eq_of_nil h, fun h => processQueue_eq_of_full h,
    ?_, ?_⟩
  · intro e rest t hq hc hreg
    rw [processQueue_eq_of_cons hq hc,
      executeToolSync_eq_admitted { s with queue := rest } hreg hc]
  · intro e rest hq hc hreg
    rw [processQueue_eq_of_cons hq hc,
      executeToolSync_eq_notFound { s with queue := rest } hreg]

theorem processQueue_single_promotion_witness :
    processQueue cfg1 st1 = st1 :=
  (processQueue_single_promotion cfg1 st1).1 rfl

/-- C4: Priority ordering of the backlog: in every reachable state the
execution queue is sorted by strictly descending priority with ascending
arrival order among equal priorities; the head of a non-empty queue
dominates every other entry (no lower-priority entry precedes it, FIFO
among equal priorities); the drain step promotes exactly the head; and no
transition ever admits an execution while a non-empty backlog is bypassed:
any newly admitted execution either found an empty backlog or is the
backlog's head entry. -/
theorem backlog_priority_order {cfg : Config} {s : OrchestratorState}
    (hreach : Reachable cfg s) :
    s.queue.Pairwise lexBefore ∧
    (∀ e rest, s.queue = e :: rest →
      (∀ x ∈ rest, x.req.priority ≤ e.req.priority ∧
        (x.req.priority = e.req.priority → e.arrival < x.arrival)) ∧
      (s.running.length < cfg.maxConcurrent →
        (processQueue cfg s).queue = rest ∧
        (processQueue cfg s).running = s.running ++
          [{ execId := s.nextExecId, tool := e.tool, req := e.req,
             phase := Phase.validating }])) ∧
    (∀ s', Step cfg s s' → ∀ x ∈ s'.running,
      x.execId ∉ s.running.map Exec.execId →
      s.queue = [] ∨
        ∃ a rest, s.queue = { tool := x.tool, req := x.req, arrival := a } :: rest) := by
  have hinv := inv_reachable hreach
  refine ⟨hinv.sortedQueue, ?_, ?_⟩
  · intro e rest hq
    constructor
    · intro x hx
      have hlex : lexBefore e x :=
        (List.pairwise_cons.mp (hq ▸ hinv.sortedQueue)).1 x hx
      rcases hlex with h | ⟨h1, h2⟩
      · exact ⟨le_of_lt h, fun hEq => absurd hEq (ne_of_lt h)⟩
      · exact ⟨le_of_eq h1.symm, fun _ => h2⟩
    · intro hc
      have hreg : cfg.registry e.req.toolName = some e.tool :=
        hinv.queueRegistered e (by rw [hq]; exact List.mem_cons_self e rest)
      rw [processQueue_eq_of_cons hq hc,
        executeToolSync_eq_admitted { s with queue := rest } hreg hc]
      exact ⟨rfl, rfl⟩
  · intro s' hst x hx hnew
    by_cases hqnil : s.queue = []
    · exact Or.inl hqnil
    · have hfull : s.running.length = cfg.maxConcurrent :=
        hinv.fullWhenQueued hqnil
      cases hst with
      | submit name params ctx prio _ _ heq =>
        subst heq
        rcases executeToolSync_mem_running hx with hx | ⟨_, _, hlt, _⟩
        · exact absurd (List.mem_map_of_mem Exec.execId hx) hnew
        · have hlt2 : s.running.length < cfg.maxConcurrent := hlt
          exact absurd hfull (Nat.ne_of_lt hlt2)
      | retryFire r l1 l2 _ _ hret heq =>
        subst heq
        rcases executeToolSync_mem_running hx with hx | ⟨_, _, hlt, _⟩
        · exact absurd (List.mem_map_of_mem Exec.execId hx) hnew
        · have hlt2 : s.running.length < cfg.maxConcurrent := hlt
          exact absurd hfull (Nat.ne_of_lt hlt2)
      | validateOk e0 l1 l2 _ _ hrun hph hval heq =>
        subst heq
        exfalso
        apply hnew
        rw [hrun]
        rcases List.mem_append.mp hx with hx | hx
        · exact List.mem_map_of_mem _ (List.mem_append_left _ hx)
        · rcases List.mem_cons.mp hx with rfl | hx
          · exact List.mem_map.mpr
              ⟨e0, List.mem_append_right _ (List.mem_cons_self e0 l2), rfl⟩
          · exact List.mem_map_of_mem _
              (List.mem_append_right _ (List.mem_cons_of_mem e0 hx))
      | validateFail e0 l1 l2 _ _ hrun hph hval heq =>
        subst heq
        rw [completeExec] at hx
        rcases processQueue_mem_running
            (s := { s with
              running := s.running.filter (fun y => y.execId != e0.execId) })
            (fun e2 he2 => hinv.queueRegistered e2 he2) hx with hx | ⟨_, a, rest, hq⟩
        · exact absurd
            (List.mem_map_of_mem Exec.execId (List.mem_filter.mp hx).1) hnew
        · exact Or.inr ⟨a, rest, hq⟩
      | raceDone e0 l1 l2 outcome _ _ hrun hph heq =>
        subst heq
        rw [completeExec] at hx
        rcases processQueue_mem_running
            (s := { s with
              running := s.running.filter (fun y => y.execId != e0.execId) })
            (fun e2 he2 => hinv.queueRegistered e2 he2) hx with hx | ⟨_, a, rest, hq⟩
        · exact absurd
            (List.mem_map_of_mem Exec.execId (List.mem_filter.mp hx).1) hnew
        · exact Or.inr ⟨a, rest, hq⟩

theorem backlog_priority_order_witness : st2.queue.Pairwise lexBefore :=
  (backlog_priority_order reach_st2).1

/-- C2 counterexample: the capacity check runs before validation, so a
submission with invalid parameters made while the coordinator is at
capacity does enter the backlog.  In the reachable state `stBad`, the
queue holds an entry whose parameters the registered tool's validation
predicate rejects. -/
theorem invalid_params_enters_backlog :
    Reachable cfg1 stBad ∧
    stBad.queue = [entryBad] ∧
    entryBad.tool.validate entryBad.req.parameters = false ∧
    cfg1.registry entryBad.req.toolName = some codeAnalysisTool :=
  ⟨reach_stBad, rfl, rfl, rfl⟩

/-- C2 (amended): validation runs only after the admission check.  Below
capacity, a registered submission with invalid parameters is admitted (it
transiently occupies a capacity slot and never enters the backlog), its
only enabled validation transition is the failure one, the release-and-
drain step then removes its execution id, and the caller receives the
`InvalidParameters` failure result; at capacity the request is enqueued
before validation is ever consulted. -/
theorem invalid_params_validated_after_admission {cfg : Config}
    {s : OrchestratorState} {r : Request} {t : Tool}
    (hreach : Reachable cfg s)
    (hreg : cfg.registry r.toolName = some t)
    (hval : t.validate r.parameters = false) :
    (s.running.length < cfg.maxConcurrent →
      (executeToolSync cfg r s).1 = SubmitOutcome.admitted s.nextExecId ∧
      (executeToolSync cfg r s).2.queue = s.queue ∧
      (executeToolSync cfg r s).2.running = s.running ++
        [{ execId := s.nextExecId, tool := t, req := r, phase := Phase.validating }] ∧
      Step cfg (executeToolSync cfg r s).2
        (completeExec cfg s.nextExecId (executeToolSync cfg r s).2) ∧
      (∀ x ∈ (completeExec cfg s.nextExecId (executeToolSync cfg r s).2).running,
        x.execId ≠ s.nextExecId)) ∧
    (cfg.maxConcurrent ≤ s.running.length →
      (executeToolSync cfg r s).1 = SubmitOutcome.queued ∧
      (executeToolSync cfg r s).2.queue =
        enqueue { tool := t, req := r, arrival := s.nextArrival } s.queue) ∧
    (invalidParamsResult r.toolName).success = false ∧
    (invalidParamsResult r.toolName).message ≠ "" := by
  refine ⟨?_, ?_, rfl, errorResult_message_ne _⟩
  · intro hc
    rw [executeToolSync_eq_admitted s hreg hc]
    refine ⟨rfl, rfl, rfl, ?_, ?_⟩
    · exact Step.validateFail
        { execId := s.nextExecId, tool := t, req := r, phase := Phase.validating }
        s.running [] _ _ rfl rfl hval rfl
    · exact completeExec_removes (Nat.lt_succ_self s.nextExecId)
  · intro hc
    rw [executeToolSync_eq_queued s hreg hc]
    exact ⟨rfl, rfl⟩

theorem invalid_params_validated_after_admission_witness :
    (executeToolSync cfg1 reqBad initialState).1 = SubmitOutcome.admitted 0 :=
  ((invalid_params_validated_after_admission (r := reqBad) (t := codeAnalysisTool)
      (show Reachable cfg1 initialState from Relation.ReflTransGen.refl)
      rfl rfl).1 (by decide)).1

/-- C6 (code bug exhibit): the at-capacity branch both enqueues the request
and schedules a 1000 ms retry that re-invokes `executeTool` without
removing the queue entry.  In the reachable state `st8`, the single
submission with ghost id 1 has had its tool's `execute` invoked twice
(`started = [1, 1, 0]`); in the reachable state `stDup`, that same
submission is simultaneously in-flight (`execB1`) and backlogged
(`entryDup`). -/
theorem double_execution_reachable :
    (Reachable cfg1 st8 ∧ st8.started.count 1 = 2) ∧
    (Reachable cfg1 stDup ∧ entryDup ∈ stDup.queue ∧ entryDup.req.reqId = 1 ∧
      execB1 ∈ stDup.running ∧ execB1.req.reqId = 1) :=
  ⟨⟨reach_st8, rfl⟩,
   ⟨reach_stDup, List.mem_singleton.mpr rfl, rfl,
    List.mem_singleton.mpr rfl, rfl⟩⟩

/-- C7 counterexample: a tool whose `execute` resolves with a failure
result (success `false`) has that result returned to the caller as-is: the
message may be empty and the errors list absent, contradicting the claim
that every tool-signalled failure is delivered with a non-empty message
and errors list. -/
def emptyFailure : ToolResult :=
  { success := false, data := none, message := "", executionTime := 0,
    errors := none }

theorem failure_result_empty_message :
    (settleRace 30000 (RaceOutcome.executed emptyFailure 7)).success = false ∧
    (settleRace 30000 (RaceOutcome.executed emptyFailure 7)).message = "" ∧
    (settleRace 30000 (RaceOutcome.executed emptyFailure 7)).errors = none :=
  ⟨rfl, rfl, rfl⟩

/-- C7 (amended): timeouts and thrown execute errors are delivered through
the `catch` block as structured failure results with success `false`, a
non-empty message, and a non-empty errors list — never as an uncaught
exception (the settling function is total); a failure result the tool
itself resolves with is passed through unchanged apart from the measured
`executionTime`, so it may carry an empty message and no errors list. -/
theorem failures_as_results (timeoutMs : Nat) (msg : String) (elapsed : Nat)
    (r : ToolResult) (name : String) :
    ((settleRace timeoutMs (RaceOutcome.execThrew msg elapsed)).success = false ∧
     (settleRace timeoutMs (RaceOutcome.execThrew msg elapsed)).message ≠ "" ∧
     (settleRace timeoutMs (RaceOutcome.execThrew msg elapsed)).errors = some [msg]) ∧
    ((settleRace timeoutMs (RaceOutcome.timedOut elapsed)).success = false ∧
     (settleRace timeoutMs (RaceOutcome.timedOut elapsed)).message ≠ "" ∧
     (settleRace timeoutMs (RaceOutcome.timedOut elapsed)).errors
        = some [timeoutMessage timeoutMs]) ∧
    settleRace timeoutMs (RaceOutcome.executed r elapsed)
      = { r with executionTime := elapsed } ∧
    (invalidParamsResult name).success = false :=
  ⟨⟨rfl, errorResult_message_ne msg, rfl⟩,
   ⟨rfl, errorResult_message_ne _, rfl⟩, rfl, rfl⟩

theorem failures_as_results_witness :
    (settleRace 50 (RaceOutcome.execThrew "boom" 7)).errors = some ["boom"] :=
  (failures_as_results 50 "boom" 7 emptyFailure "code-analysis").1.2.2

/-- C9 counterexample: an execution that times out after a measured 50 ms
race is handed back with `executionTime` 0, not the measured duration —
the `catch` block hard-codes `executionTime: 0`. -/
theorem timeout_executionTime_zero :
    (settleRace 30000 (RaceOutcome.timedOut 50)).executionTime = 0 :=
  rfl

/-- C9 (amended): only executions whose `execute` resolves carry the
measured race duration in `executionTime` (with the tool's success flag);
every result built by the `catch` block — thrown execute error, timeout,
or validation failure — carries `executionTime` 0 regardless of the
measured elapsed time. -/
theorem executionTime_recorded (timeoutMs elapsed : Nat) (msg : String)
    (r : ToolResult) (name : String) :
    (settleRace timeoutMs (RaceOutcome.executed r elapsed)).executionTime = elapsed ∧
    (settleRace timeoutMs (RaceOutcome.executed r elapsed)).success = r.success ∧
    (settleRace timeoutMs (RaceOutcome.execThrew msg elapsed)).executionTime = 0 ∧
    (settleRace timeoutMs (RaceOutcome.timedOut elapsed)).executionTime = 0 ∧
    (invalidParamsResult name).executionTime = 0 :=
  ⟨rfl, rfl, rfl, rfl, rfl⟩
